import Mathlib

/-!
Verification of `semgrep/target_manager.py` (target resolution and filtering).

The development shallowly embeds the module: `pathlib.Path` values become
`SPath` (an absolute-path flag plus the list of path components, mirroring
`PurePath.parts` without the root anchor), Python sets of paths become
`Finset SPath`, the filesystem and the git subprocess calls become an
explicit `FS` record, and fallible code returns `Except PyError`.
-/

namespace SemgrepTM

/-- A `pathlib.Path` value: whether the path is absolute, and its components
(`PurePath.parts`, excluding the root anchor). `pathlib` normalizes away
empty components and `.` components when parsing a string. -/
structure SPath where
  absolute : Bool
  parts : List String
deriving DecidableEq

/-- Split a character list at every occurrence of a separator character
(the semantics of Python's `str.split` with a one-character separator). -/
def splitChars (sep : Char) : List Char → List (List Char)
  | [] => [[]]
  | c :: cs =>
    let r := splitChars sep cs
    if c == sep then [] :: r
    else
      match r with
      | [] => [[c]]
      | h :: t => (c :: h) :: t

/-- Python's `str.strip()`: drop whitespace from both ends. -/
def stripChars (l : List Char) : List Char :=
  ((l.dropWhile Char.isWhitespace).reverse.dropWhile Char.isWhitespace).reverse

/-- Parsing a path string the way `pathlib.PurePosixPath` does: the path is
absolute iff the string starts with `/`; components are the nonempty,
non-`.` segments between slashes. -/
def parsePath (s : String) : SPath :=
  ⟨decide (s.data.head? = some '/'),
   ((splitChars '/' s.data).map String.mk).filter (fun c => !(c == "") && !(c == "."))⟩

/-- `pathlib`'s `/` (`joinpath`): if the right operand is absolute it
replaces the left; otherwise the components are concatenated. -/
def joinPath (a b : SPath) : SPath :=
  if b.absolute then b else ⟨a.absolute, a.parts ++ b.parts⟩

/-- `PurePath.parents`: the ancestors of a path, nearest first, ending at
the root (for an absolute path) or at `.` (for a relative path, whose
representation here is `⟨false, []⟩`). -/
def parents (p : SPath) : List SPath :=
  (List.range p.parts.length).reverse.map (fun k => ⟨p.absolute, p.parts.take k⟩)

/-!
`fnmatch`-style shell glob matching on one path component, as used by
`PurePath.match`: `*` matches any character sequence, `?` any single
character, `[...]` a character class (with `!` negation and `a-z` ranges,
and with a `[` that has no closing `]` treated as a literal).
-/

/-- Membership of a character in the body of a character class. -/
def classMatch : List Char → Char → Bool
  | [], _ => false
  | a :: '-' :: b :: rest, c => (decide (a ≤ c) && decide (c ≤ b)) || classMatch rest c
  | a :: rest, c => (a == c) || classMatch rest c

/-- Scan forward to the closing `]` of a character class, returning the
class body and the remaining pattern; `none` when there is no closing `]`. -/
def scanClass : List Char → Option (List Char × List Char)
  | [] => none
  | ']' :: t => some ([], t)
  | c :: t => (scanClass t).map (fun r => (c :: r.1, r.2))

/-- Read a character class body after a possible `!`; a `]` in first
position belongs to the class body. -/
def mkClass (neg : Bool) (l : List Char) : Option (Bool × List Char × List Char) :=
  match l with
  | ']' :: t => (scanClass t).map (fun r => (neg, ']' :: r.1, r.2))
  | _ => (scanClass l).map (fun r => (neg, r.1, r.2))

/-- Split a character class off the front of the pattern tail that follows
a `[`, recording whether the class is negated by a leading `!`. -/
def splitClass (l : List Char) : Option (Bool × List Char × List Char) :=
  match l with
  | '!' :: t => mkClass true t
  | _ => mkClass false l

/-- Core `fnmatch` matcher on character lists, structurally recursive on a
fuel bound so that it reduces inside the kernel. Every recursive call
strictly decreases the sum of the lengths of the pattern and the string, so
any fuel above that sum is enough and the `0` case is never reached. -/
def globMatchF : Nat → List Char → List Char → Bool
  | 0, _, _ => false
  | fuel + 1, pattern, s =>
    match pattern, s with
    | [], [] => true
    | [], _ :: _ => false
    | '*' :: ps, [] => globMatchF fuel ps []
    | '*' :: ps, c :: cs => globMatchF fuel ps (c :: cs) || globMatchF fuel ('*' :: ps) cs
    | '?' :: _, [] => false
    | '?' :: ps, _ :: cs => globMatchF fuel ps cs
    | '[' :: _, [] => false
    | '[' :: ps, c :: cs =>
      match splitClass ps with
      | some (neg, cls, rest) => (classMatch cls c != neg) && globMatchF fuel rest cs
      | none => (c == '[') && globMatchF fuel ps cs
    | _ :: _, [] => false
    | p :: ps, c :: cs => (p == c) && globMatchF fuel ps cs

/-- `fnmatch` of a glob pattern against a whole string. -/
def globMatch (ps s : List Char) : Bool :=
  globMatchF (ps.length + s.length + 1) ps s

/-- `fnmatch` on strings. -/
def fnmatchStr (pat s : String) : Bool :=
  globMatch pat.data s.data

/-- Componentwise `fnmatch` of two component lists of equal length. -/
def fnmatchZip : List String → List String → Bool
  | [], [] => true
  | p :: ps, s :: ss => fnmatchStr p s && fnmatchZip ps ss
  | _, _ => false

/-- `PurePath.match(pattern)`: a relative pattern is matched from the right
against the trailing components of the path; an absolute pattern must match
the whole of an absolute path. (`pathlib` raises `ValueError` on an empty
pattern; the source never passes one, and the embedding returns `false`.) -/
def pathMatch (p : SPath) (pattern : String) : Bool :=
  let pat := parsePath pattern
  if pat.parts.isEmpty then false
  else if pat.absolute then
    p.absolute && pat.parts.length == p.parts.length && fnmatchZip pat.parts p.parts
  else
    decide (pat.parts.length ≤ p.parts.length) &&
      fnmatchZip pat.parts (p.parts.drop (p.parts.length - pat.parts.length))

/-!
The filesystem and the external process calls the module makes. Directories
and regular files are explicit lists of paths; the two `git ls-files`
invocations of `_expand_dir` are oracles returning either their raw stdout
or one of the two ways `subprocess.check_output` can fail — a nonzero exit
status, or a missing executable.
-/

/-- The outcome of one `subprocess.check_output` git invocation: `output`
carries the stdout of an exit-status-0 run; `calledProcessError` is a
nonzero exit status (`subprocess.CalledProcessError`, which the source
catches); `fileNotFoundError` is an unavailable `git` executable, for which
Python raises the builtin `FileNotFoundError` — which the source does NOT
catch. -/
inductive GitResult where
  | output (stdout : String)
  | calledProcessError
  | fileNotFoundError
deriving DecidableEq

/-- The stdout of a successful git invocation (defaulting to the empty
string on a failure). -/
def GitResult.getOutput : GitResult → String
  | .output s => s
  | _ => ""

/-- Whether the git invocation ran and exited with status 0. -/
def GitResult.isOutput : GitResult → Bool
  | .output _ => true
  | _ => false

/-- The state of the world the module observes: which paths are directories,
which are regular files, and what the two git subprocess calls do for a
given working directory and extension. -/
structure FS where
  dirs : List SPath
  files : List SPath
  gitTracked : SPath → String → GitResult
  gitUntracked : SPath → String → GitResult

/-- `Path.is_dir()`. -/
def FS.is_dir (fs : FS) (p : SPath) : Bool :=
  decide (p ∈ fs.dirs)

/-- `Path.exists()`. -/
def FS.pathExists (fs : FS) (p : SPath) : Bool :=
  decide (p ∈ fs.dirs) || decide (p ∈ fs.files)

/-- The exceptions that can escape the module. `UnknownLanguageError` and
`NotGitProjectError` are modelled from the spec: the exception classes of
`semgrep.error` are not under `src/`; §7 gives the taxonomy. Each carries
the payload its message is built from (the source formats f-strings; the
`curr_dir.resolve()` in the git message is kept as the directory itself).
`FileNotFoundError` is the Python builtin raised by `subprocess` when the
`git` executable is unavailable; the source's `except
subprocess.CalledProcessError` does not catch it, so it propagates out of
`_expand_dir` uncaught. -/
inductive PyError where
  | UnknownLanguageError (language : String)
  | NotGitProjectError (dir : SPath)
  | FileNotFoundError
deriving DecidableEq

instance {ε α : Type} [DecidableEq ε] [DecidableEq α] : DecidableEq (Except ε α) :=
  fun x y =>
    match x, y with
    | .ok a, .ok b => decidable_of_iff (a = b) (by simp)
    | .ok _, .error _ => isFalse (by simp)
    | .error _, .ok _ => isFalse (by simp)
    | .error e, .error f => decidable_of_iff (e = f) (by simp)

/-- `lang_to_exts`: convert a language to its expected file extensions;
raises `UnknownLanguageError` on an unsupported language. -/
def lang_to_exts (language : String) : Except PyError (List String) :=
  if language ∈ ["python", "python2", "python3", "py"] then .ok ["py", "pyi"]
  else if language ∈ ["js", "javascript"] then .ok ["js"]
  else if language ∈ ["java"] then .ok ["java"]
  else if language ∈ ["c"] then .ok ["c"]
  else if language ∈ ["go", "golang"] then .ok ["go"]
  else if language ∈ ["ml", "ocaml"] then .ok ["mli", "ml", "mly", "mll"]
  else .error (.UnknownLanguageError language)

namespace TargetManager

/-- `TargetManager._parse_output`: convert newline-delimited subprocess
output into a set of paths, prepending `curr_dir` to each; the empty string
(falsy in Python) gives the empty set. -/
def _parse_output (output : String) (curr_dir : SPath) : Finset SPath :=
  if output == "" then ∅
  else (((splitChars '\n' (stripChars output.data)).map String.mk).map
    (fun elem => joinPath curr_dir (parsePath elem))).toFinset

/-- Modelled from the spec: the filesystem-search collaborator
`find_files(directory, suffix_pattern)` of §6, which the source reaches
through `find CURR_DIR -type f -name *.EXT`: the regular files at any depth
strictly below `curr_dir` whose final component matches the suffix pattern;
`find` prints each result prefixed with the starting directory. -/
def findFiles (fs : FS) (curr_dir : SPath) (ext : String) : Finset SPath :=
  (fs.files.filter (fun f =>
    (curr_dir.absolute == f.absolute) &&
    curr_dir.parts.isPrefixOf f.parts &&
    decide (curr_dir.parts.length < f.parts.length) &&
    (match f.parts.getLast? with
     | some base => fnmatchStr ("*." ++ ext) base
     | none => false))).toFinset

/-- The `for ext in extensions` loop body of `_expand_dir`: in git mode the
tracked query runs first inside a `try` whose `except
subprocess.CalledProcessError` turns a nonzero exit (of either query) into
`NotGitProjectError`; a `FileNotFoundError` from a missing `git` executable
is not caught and propagates as-is. Otherwise the `find` results for the
extension are unioned in. -/
def _expand_exts (fs : FS) (curr_dir : SPath) (visible_to_git_only : Bool) :
    List String → Finset SPath → Except PyError (Finset SPath)
  | [], expanded => .ok expanded
  | ext :: rest, expanded =>
    if visible_to_git_only then
      match fs.gitTracked curr_dir ext with
      | .fileNotFoundError => .error .FileNotFoundError
      | .calledProcessError => .error (.NotGitProjectError curr_dir)
      | .output tracked_output =>
        match fs.gitUntracked curr_dir ext with
        | .fileNotFoundError => .error .FileNotFoundError
        | .calledProcessError => .error (.NotGitProjectError curr_dir)
        | .output untracked_output =>
          let tracked := _parse_output tracked_output curr_dir
          let untracked_unignored := _parse_output untracked_output curr_dir
          _expand_exts fs curr_dir visible_to_git_only rest
            ((expanded ∪ tracked) ∪ untracked_unignored)
    else
      let ext_files := findFiles fs curr_dir ext
      _expand_exts fs curr_dir visible_to_git_only rest (expanded ∪ ext_files)

/-- `TargetManager._expand_dir`: all files under a directory carrying one of
the language's extensions (`find` prints paths already rooted at `curr_dir`,
so the `_parse_output(output.stdout, Path("."))` of the source is the
identity prefix and `findFiles` returns the rooted paths directly). -/
def _expand_dir (fs : FS) (curr_dir : SPath) (language : String)
    (visible_to_git_only : Bool) : Except PyError (Finset SPath) :=
  match lang_to_exts language with
  | .error e => .error e
  | .ok extensions => _expand_exts fs curr_dir visible_to_git_only extensions ∅

/-- `TargetManager.expand_targets`: explore all directories, skipping
targets that do not exist; a non-directory target is added as-is. The
Python `for` over the set is embedded as a fold over a list enumerating the
set (iteration order of a Python set is unspecified). -/
def expand_targets (fs : FS) (targets : List SPath) (lang : String)
    (visible_to_git_only : Bool) : Except PyError (Finset SPath) :=
  match targets with
  | [] => .ok ∅
  | t :: ts =>
    if fs.pathExists t = false then expand_targets fs ts lang visible_to_git_only
    else if fs.is_dir t then
      match _expand_dir fs t lang visible_to_git_only with
      | .error e => .error e
      | .ok e =>
        match expand_targets fs ts lang visible_to_git_only with
        | .error e2 => .error e2
        | .ok rest => .ok (e ∪ rest)
    else
      match expand_targets fs ts lang visible_to_git_only with
      | .error e2 => .error e2
      | .ok rest => .ok (insert t rest)

/-- `TargetManager.match_glob`: true if the path or any parent of the path
matches any glob in `globs`. -/
def match_glob (path : SPath) (globs : List String) : Bool :=
  (path :: parents path).any (fun p => globs.any (fun glob => pathMatch p glob))

/-- `TargetManager.filter_includes`: the elements matching some include
pattern; an empty include list returns the set unchanged. -/
def filter_includes (arr : Finset SPath) (includes : List String) : Finset SPath :=
  if includes = [] then arr
  else arr.filter (fun elem => match_glob elem includes = true)

/-- `TargetManager.filter_excludes`: the elements matching no exclude
pattern. -/
def filter_excludes (arr : Finset SPath) (excludes : List String) : Finset SPath :=
  arr.filter (fun elem => match_glob elem excludes = false)

/-- `TargetManager.resolve_targets`: resolve each target string relative to
the cwd (`Path(".")`) unless it is already absolute. The Python set is
embedded as the deduplicated list of resolutions. -/
def resolve_targets (targets : List String) : List SPath :=
  (targets.map (fun target =>
    if (parsePath target).absolute then parsePath target
    else joinPath ⟨false, []⟩ (parsePath target))).dedup

/-- Modelled from the spec: `partition_set` (`semgrep.util`, not under
`src/`) splits a collection into the elements that satisfy the predicate
and those that do not; §4.6 stage 2 uses it to separate explicit files
(`not p.is_dir()`) from directories. -/
def partition_set (pred : SPath → Bool) (l : List SPath) : List SPath × List SPath :=
  (l.filter pred, l.filter (fun x => !(pred x)))

end TargetManager

/-- The `TargetManager` object: constructor arguments plus the
`_filtered_targets` per-language cache, an association list written at most
once per language. -/
structure TargetManager where
  includes : List String
  excludes : List String
  targets : List String
  visible_to_git_only : Bool
  filtered_targets : List (String × Finset SPath)
deriving DecidableEq

namespace TargetManager

/-- `TargetManager.__init__`: the cache starts empty. -/
def init (includes excludes targets : List String) (visible_to_git_only : Bool) :
    TargetManager :=
  ⟨includes, excludes, targets, visible_to_git_only, []⟩

/-- Lookup in the `_filtered_targets` dictionary. -/
def lookupCache : List (String × Finset SPath) → String → Option (Finset SPath)
  | [], _ => none
  | (k, v) :: rest, lang => if k = lang then some v else lookupCache rest lang

/-- `TargetManager.filtered_files`: the cached-or-computed global result for
a language. On a cache miss: resolve the targets, partition them into
explicit (non-directory) paths and directories, expand the directories,
apply the global include then exclude filters, union the explicit paths
back in, and store the result under the language key. -/
def filtered_files (tm : TargetManager) (fs : FS) (lang : String) :
    Except PyError (Finset SPath × TargetManager) :=
  match lookupCache tm.filtered_targets lang with
  | some s => .ok (s, tm)
  | none =>
    let targets := resolve_targets tm.targets
    let pr := partition_set (fun p => ! fs.is_dir p) targets
    match expand_targets fs pr.2 lang tm.visible_to_git_only with
    | .error e => .error e
    | .ok expanded =>
      let result :=
        (filter_excludes (filter_includes expanded tm.includes) tm.excludes) ∪ pr.1.toFinset
      .ok (result, { tm with filtered_targets := (lang, result) :: tm.filtered_targets })

/-- `TargetManager.get_files`: the global result for the language with the
local include then exclude filters applied, returned as `list(...)` — the
list is embedded as a `Multiset` since the enumeration order of a Python
set is unspecified. -/
def get_files (tm : TargetManager) (fs : FS) (lang : String)
    (includes excludes : List String) :
    Except PyError (Multiset SPath × TargetManager) :=
  match tm.filtered_files fs lang with
  | .error e => .error e
  | .ok (targets, tm2) =>
    .ok ((filter_excludes (filter_includes targets includes) excludes).val, tm2)

end TargetManager

open TargetManager

/-!
Concrete fixtures used by the scenario theorems and witnesses.
-/

/-- A filesystem with no directories, no files, and no git repository: the
git tool runs but exits nonzero everywhere. -/
def fsEmpty : FS := ⟨[], [], fun _ _ => .calledProcessError, fun _ _ => .calledProcessError⟩

/-- A filesystem holding the single regular file `main.py`. -/
def fsMainPy : FS :=
  ⟨[], [⟨false, ["main.py"]⟩], fun _ _ => .calledProcessError, fun _ _ => .calledProcessError⟩

/-- A filesystem holding the single regular file `main.go`. -/
def fsMainGo : FS :=
  ⟨[], [⟨false, ["main.go"]⟩], fun _ _ => .calledProcessError, fun _ _ => .calledProcessError⟩

/-- Scenario A's filesystem: a directory `src` containing `a.py`, `b.pyi`
and `c.txt`. -/
def fsSrc : FS :=
  ⟨[⟨false, ["src"]⟩],
   [⟨false, ["src", "a.py"]⟩, ⟨false, ["src", "b.pyi"]⟩, ⟨false, ["src", "c.txt"]⟩],
   fun _ _ => .calledProcessError, fun _ _ => .calledProcessError⟩

/-- A git working tree at `repo`: for the `go` extension the tracked query
prints `x.go` and `sub/y.go`, the untracked query prints `z.go`; every
other query exits nonzero. -/
def fsGit : FS :=
  ⟨[⟨false, ["repo"]⟩], [],
   fun _ ext => if ext == "go" then .output "x.go\nsub/y.go\n" else .calledProcessError,
   fun _ ext => if ext == "go" then .output "z.go" else .calledProcessError⟩

/-- A machine with the directory `repo` but no `git` executable at all:
every git invocation raises the builtin `FileNotFoundError`. -/
def fsNoGit : FS :=
  ⟨[⟨false, ["repo"]⟩], [], fun _ _ => .fileNotFoundError, fun _ _ => .fileNotFoundError⟩

/-- Scenario B's manager: the explicit target `main.go` with a global
exclude pattern that matches it. -/
def tmMainGo : TargetManager := TargetManager.init [] ["*.go"] ["main.go"] false

/-!
Helper lemmas.
-/

theorem match_glob_nil (p : SPath) : match_glob p [] = false := by
  simp [match_glob]

theorem is_dir_pathExists (fs : FS) (p : SPath) (h : fs.is_dir p = true) :
    fs.pathExists p = true := by
  simp only [FS.is_dir, decide_eq_true_eq] at h
  simp [FS.pathExists, h]

theorem filter_includes_subset (S : Finset SPath) (includes : List String) :
    filter_includes S includes ⊆ S := by
  unfold filter_includes
  by_cases h : includes = []
  · simp [h]
  · simp only [if_neg h]
    exact Finset.filter_subset _ _

theorem mem_filter_includes (S : Finset SPath) (includes : List String) (p : SPath)
    (hne : includes ≠ []) (hp : p ∈ filter_includes S includes) :
    match_glob p includes = true := by
  unfold filter_includes at hp
  rw [if_neg hne] at hp
  exact (Finset.mem_filter.mp hp).2

theorem mem_filter_excludes (S : Finset SPath) (excludes : List String) (p : SPath)
    (hp : p ∈ filter_excludes S excludes) :
    p ∈ S ∧ match_glob p excludes = false :=
  Finset.mem_filter.mp hp

/-!
Claim theorems.
-/

/-- Claim C4: for every set of paths `S`, `filter_includes S []` returns `S`
unchanged and `filter_excludes S []` returns `S` unchanged: an empty include
list is no restriction, an empty exclude list removes nothing. -/
theorem c4_empty_filter_lists_are_identity (S : Finset SPath) :
    filter_includes S [] = S ∧ filter_excludes S [] = S := by
  constructor
  · simp [filter_includes]
  · exact Finset.filter_true_of_mem (fun x _ => match_glob_nil x)

/-- Claim C5: for every set of paths `S` and pattern list `P`, no element of
`filter_excludes S P` matches any pattern of `P` under the ancestor-or-self
rule (`match_glob` is false on every element), and the result is a subset
of `S`. -/
theorem c5_filter_excludes_sound (S : Finset SPath) (P : List String) :
    (∀ p ∈ filter_excludes S P, match_glob p P = false) ∧
    filter_excludes S P ⊆ S := by
  constructor
  · intro p hp
    exact (Finset.mem_filter.mp hp).2
  · exact Finset.filter_subset _ _

/-- Witness for C5 at a concrete input: `src/a.py` survives the exclude
pattern `tests`, so the theorem applies to it and reports no match. -/
theorem c5_filter_excludes_sound_witness :
    match_glob ⟨false, ["src", "a.py"]⟩ ["tests"] = false ∧
    filter_excludes {(⟨false, ["src", "a.py"]⟩ : SPath)} ["tests"] ⊆
      {(⟨false, ["src", "a.py"]⟩ : SPath)} :=
  ⟨(c5_filter_excludes_sound {(⟨false, ["src", "a.py"]⟩ : SPath)} ["tests"]).1 _ (by decide),
   (c5_filter_excludes_sound {(⟨false, ["src", "a.py"]⟩ : SPath)} ["tests"]).2⟩

/-- Claim C7: `match_glob` is ancestor-or-self glob matching: it is true iff
the path itself or one of its ancestor directories matches some pattern; in
particular `project/tests/foo.py` matches the pattern `tests` through its
ancestor directory `project/tests` even though the filename itself does not
match, so `filter_excludes` with `["tests"]` removes it. -/
theorem c7_match_glob_ancestor_or_self :
    (∀ (path : SPath) (globs : List String),
      match_glob path globs = true ↔
        ∃ p ∈ path :: parents path, ∃ glob ∈ globs, pathMatch p glob = true) ∧
    match_glob ⟨false, ["project", "tests", "foo.py"]⟩ ["tests"] = true ∧
    pathMatch ⟨false, ["project", "tests", "foo.py"]⟩ "tests" = false ∧
    pathMatch ⟨false, ["project", "tests"]⟩ "tests" = true ∧
    filter_excludes {(⟨false, ["project", "tests", "foo.py"]⟩ : SPath)} ["tests"] = ∅ := by
  refine ⟨?_, by decide, by decide, by decide, by decide⟩
  intro path globs
  simp [match_glob, List.any_eq_true]

/-- Witness for C7 at the concrete input of the claim: the ancestor
`project/tests` and the pattern `tests` witness the existential. -/
theorem c7_match_glob_ancestor_or_self_witness :
    ∃ p ∈ (⟨false, ["project", "tests", "foo.py"]⟩ : SPath) ::
        parents ⟨false, ["project", "tests", "foo.py"]⟩,
      ∃ glob ∈ ["tests"], pathMatch p glob = true :=
  (c7_match_glob_ancestor_or_self.1 _ _).mp (by decide)

/-- Claim C1 (evaluation at the failing input): the nonexistent target
`ghost.py` is NOT dropped. `partition_set (fun p => ! is_dir p)` classifies
a nonexistent path as an explicit file (it is not a directory), so it is
unioned into the result of `filtered_files` and into `get_files`, and the
`not target.exists()` skip inside `expand_targets` never sees it — that
check only receives the directory half of the partition. -/
theorem c1_nonexistent_target_survives :
    (TargetManager.init [] [] ["ghost.py"] false).filtered_files fsEmpty "python" =
      .ok ({(⟨false, ["ghost.py"]⟩ : SPath)},
        ⟨[], [], ["ghost.py"], false, [("python", {(⟨false, ["ghost.py"]⟩ : SPath)})]⟩) ∧
    (TargetManager.init [] [] ["ghost.py"] false).get_files fsEmpty "python" [] [] =
      .ok ({(⟨false, ["ghost.py"]⟩ : SPath)},
        ⟨[], [], ["ghost.py"], false, [("python", {(⟨false, ["ghost.py"]⟩ : SPath)})]⟩) := by
  constructor
  · decide
  · decide

/-- Counterexample to claim C2 as stated: with the unsupported language
`ruby` but a target list containing only a file (no directory),
`filtered_files` returns a result and raises nothing — `lang_to_exts` is
only reached inside `_expand_dir`, which runs only when a directory has to
be expanded, and the `is_dir` filesystem checks of the partition happen
first in any case. -/
theorem c2_unsupported_language_no_error_on_file_targets :
    (TargetManager.init [] [] ["main.py"] false).filtered_files fsMainPy "ruby" =
      .ok ({(⟨false, ["main.py"]⟩ : SPath)},
        ⟨[], [], ["main.py"], false, [("ruby", {(⟨false, ["main.py"]⟩ : SPath)})]⟩) ∧
    ∀ e, (TargetManager.init [] [] ["main.py"] false).filtered_files fsMainPy "ruby" ≠
      .error e := by
  have h : (TargetManager.init [] [] ["main.py"] false).filtered_files fsMainPy "ruby" =
      .ok ({(⟨false, ["main.py"]⟩ : SPath)},
        ⟨[], [], ["main.py"], false, [("ruby", {(⟨false, ["main.py"]⟩ : SPath)})]⟩) := by
    decide
  exact ⟨h, fun e he => by rw [h] at he; exact Except.noConfusion he⟩

/-- Claim C2 as amended: on a cache miss for an unsupported language,
`filtered_files` raises `UnknownLanguageError` if and only if at least one
resolved target is a directory of the filesystem — the error arises during
directory expansion, after the `is_dir` type checks, and with no directory
target no error is raised at all. -/
theorem c2_unsupported_language_error_iff_directory_target
    (tm : TargetManager) (fs : FS) (lang : String)
    (hmiss : lookupCache tm.filtered_targets lang = none)
    (hlang : lang_to_exts lang = .error (.UnknownLanguageError lang)) :
    tm.filtered_files fs lang = .error (.UnknownLanguageError lang) ↔
      (resolve_targets tm.targets).filter (fun p => fs.is_dir p) ≠ [] := by
  have hdirs : (partition_set (fun p => ! fs.is_dir p) (resolve_targets tm.targets)).2 =
      (resolve_targets tm.targets).filter (fun p => fs.is_dir p) := by
    simp [partition_set]
  simp only [filtered_files, hmiss, hdirs]
  cases hD : (resolve_targets tm.targets).filter (fun p => fs.is_dir p) with
  | nil => simp [expand_targets]
  | cons t ts =>
    have ht : fs.is_dir t = true := by
      have : t ∈ (resolve_targets tm.targets).filter (fun p => fs.is_dir p) := by
        rw [hD]; exact List.mem_cons_self t ts
      exact (List.mem_filter.mp this).2
    have hex : fs.pathExists t = true := is_dir_pathExists fs t ht
    have hexp : expand_targets fs (t :: ts) lang tm.visible_to_git_only =
        .error (.UnknownLanguageError lang) := by
      unfold expand_targets
      rw [hex, ht]
      simp [_expand_dir, hlang]
    rw [hexp]
    simp

/-- Witness for the amended C2: a manager targeting the directory `src` and
queried with the unsupported language `ruby` fails with
`UnknownLanguageError`. -/
theorem c2_unsupported_language_error_iff_directory_target_witness :
    (TargetManager.init [] [] ["src"] false).filtered_files fsSrc "ruby" =
      .error (.UnknownLanguageError "ruby") :=
  (c2_unsupported_language_error_iff_directory_target
    (TargetManager.init [] [] ["src"] false) fsSrc "ruby" (by decide) (by decide)).mpr
    (by decide)

/-- Claim C3: on a cache miss, any resolved target that exists and is not a
directory is classified as an explicit file and is a member of the set
returned by `filtered_files`, for every choice of global include and
exclude pattern lists — explicit files bypass the global filters. -/
theorem c3_explicit_file_bypasses_global_filters
    (tm : TargetManager) (fs : FS) (lang : String) (p : SPath)
    (s : Finset SPath) (tm2 : TargetManager)
    (hmiss : lookupCache tm.filtered_targets lang = none)
    (hp : p ∈ resolve_targets tm.targets)
    (_hex : fs.pathExists p = true)
    (hfile : fs.is_dir p = false)
    (hok : tm.filtered_files fs lang = .ok (s, tm2)) :
    p ∈ s := by
  simp only [filtered_files, hmiss] at hok
  cases hexp : expand_targets fs
      (partition_set (fun q => ! fs.is_dir q) (resolve_targets tm.targets)).2 lang
      tm.visible_to_git_only with
  | error e => rw [hexp] at hok; exact Except.noConfusion hok
  | ok expanded =>
    rw [hexp] at hok
    simp only [Except.ok.injEq, Prod.mk.injEq] at hok
    obtain ⟨hs, -⟩ := hok
    have hmem : p ∈ (partition_set (fun q => ! fs.is_dir q) (resolve_targets tm.targets)).1 := by
      simp [partition_set, List.mem_filter, hp, hfile]
    rw [← hs]
    exact Finset.mem_union_right _ (List.mem_toFinset.mpr hmem)

/-- Witness for C3: Scenario B — the explicit target `main.go` is in the
result even though the global exclude pattern `*.go` matches it. -/
theorem c3_explicit_file_bypasses_global_filters_witness :
    tmMainGo.filtered_files fsMainGo "go" =
      .ok ({(⟨false, ["main.go"]⟩ : SPath)},
        ⟨[], ["*.go"], ["main.go"], false, [("go", {(⟨false, ["main.go"]⟩ : SPath)})]⟩) ∧
    (⟨false, ["main.go"]⟩ : SPath) ∈ ({(⟨false, ["main.go"]⟩ : SPath)} : Finset SPath) :=
  ⟨by decide,
   c3_explicit_file_bypasses_global_filters tmMainGo fsMainGo "go"
    ⟨false, ["main.go"]⟩ {(⟨false, ["main.go"]⟩ : SPath)}
    ⟨[], ["*.go"], ["main.go"], false, [("go", {(⟨false, ["main.go"]⟩ : SPath)})]⟩
    (by decide) (by decide) (by decide) (by decide) (by decide)⟩

/-- Claim C6: if a `filtered_files` call succeeds with result set `s` and
updated manager `tm1`, then a second call on `tm1` for the same language
returns exactly `(s, tm1)` whatever the filesystem looks like by then — the
cached entry is returned as-is, with no new expansion or version-control
query and no further cache write. -/
theorem c6_filtered_files_cached_and_stable
    (tm tm1 : TargetManager) (fs1 : FS) (lang : String) (s : Finset SPath)
    (h : tm.filtered_files fs1 lang = .ok (s, tm1)) :
    ∀ fs2 : FS, tm1.filtered_files fs2 lang = .ok (s, tm1) := by
  intro fs2
  cases hc : lookupCache tm.filtered_targets lang with
  | some s0 =>
    simp only [filtered_files, hc] at h
    simp only [Except.ok.injEq, Prod.mk.injEq] at h
    obtain ⟨hs, htm⟩ := h
    simp only [filtered_files, ← htm, hc, hs]
  | none =>
    simp only [filtered_files, hc] at h
    cases hexp : expand_targets fs1
        (partition_set (fun q => ! fs1.is_dir q) (resolve_targets tm.targets)).2 lang
        tm.visible_to_git_only with
    | error e => rw [hexp] at h; exact Except.noConfusion h
    | ok expanded =>
      rw [hexp] at h
      simp only [Except.ok.injEq, Prod.mk.injEq] at h
      obtain ⟨hs, htm⟩ := h
      have hlook : lookupCache tm1.filtered_targets lang = some s := by
        rw [← htm]
        simp [lookupCache, hs]
      simp only [filtered_files, hlook]

/-- Witness for C6: after resolving `main.py` against a filesystem where it
exists, a second query against the empty filesystem still returns the
cached set. -/
theorem c6_filtered_files_cached_and_stable_witness :
    (TargetManager.init [] [] ["main.py"] false).filtered_files fsMainPy "python" =
      .ok ({(⟨false, ["main.py"]⟩ : SPath)},
        ⟨[], [], ["main.py"], false, [("python", {(⟨false, ["main.py"]⟩ : SPath)})]⟩) ∧
    (⟨[], [], ["main.py"], false,
        [("python", {(⟨false, ["main.py"]⟩ : SPath)})]⟩ : TargetManager).filtered_files
      fsEmpty "python" =
      .ok ({(⟨false, ["main.py"]⟩ : SPath)},
        ⟨[], [], ["main.py"], false, [("python", {(⟨false, ["main.py"]⟩ : SPath)})]⟩) :=
  ⟨by decide,
   c6_filtered_files_cached_and_stable (TargetManager.init [] [] ["main.py"] false) _
    fsMainPy "python" _ (by decide) fsEmpty⟩

/-- The set claim C8 predicts for a successful git-mode expansion: the
union, over the extensions, of the parsed tracked output and the parsed
untracked-but-not-ignored output, each path rooted at the queried directory
(`_parse_output` performs the rooting). -/
def gitUnion (fs : FS) (d : SPath) : List String → Finset SPath
  | [] => ∅
  | ext :: rest =>
    _parse_output (fs.gitTracked d ext).getOutput d ∪
      (_parse_output (fs.gitUntracked d ext).getOutput d ∪ gitUnion fs d rest)

theorem _expand_exts_git_fail (fs : FS) (d : SPath) (exts : List String)
    (acc : Finset SPath)
    (havail : ∀ ext ∈ exts, fs.gitTracked d ext ≠ .fileNotFoundError ∧
      fs.gitUntracked d ext ≠ .fileNotFoundError)
    (h : ∃ ext ∈ exts, fs.gitTracked d ext = .calledProcessError ∨
      fs.gitUntracked d ext = .calledProcessError) :
    _expand_exts fs d true exts acc = .error (.NotGitProjectError d) := by
  induction exts generalizing acc with
  | nil => simp at h
  | cons e0 rest ih =>
    obtain ⟨ext, hmem, hfail⟩ := h
    obtain ⟨hTa, hUa⟩ := havail e0 (List.mem_cons_self e0 rest)
    cases hT : fs.gitTracked d e0 with
    | fileNotFoundError => exact absurd hT hTa
    | calledProcessError => simp [_expand_exts, hT]
    | output t =>
      cases hU : fs.gitUntracked d e0 with
      | fileNotFoundError => exact absurd hU hUa
      | calledProcessError => simp [_expand_exts, hT, hU]
      | output u =>
        have hrest : ext ∈ rest := by
          rcases List.mem_cons.mp hmem with h0 | h0
          · subst h0
            rcases hfail with hf | hf
            · rw [hT] at hf; exact GitResult.noConfusion hf
            · rw [hU] at hf; exact GitResult.noConfusion hf
          · exact h0
        simp only [_expand_exts, hT, hU, if_true]
        exact ih _ (fun e he => havail e (List.mem_cons_of_mem e0 he)) ⟨ext, hrest, hfail⟩

theorem _expand_exts_git_notfound (fs : FS) (d : SPath) (exts : List String)
    (acc : Finset SPath)
    (hexit : ∀ ext ∈ exts, fs.gitTracked d ext ≠ .calledProcessError ∧
      fs.gitUntracked d ext ≠ .calledProcessError)
    (h : ∃ ext ∈ exts, fs.gitTracked d ext = .fileNotFoundError ∨
      fs.gitUntracked d ext = .fileNotFoundError) :
    _expand_exts fs d true exts acc = .error .FileNotFoundError := by
  induction exts generalizing acc with
  | nil => simp at h
  | cons e0 rest ih =>
    obtain ⟨ext, hmem, hfail⟩ := h
    obtain ⟨hTa, hUa⟩ := hexit e0 (List.mem_cons_self e0 rest)
    cases hT : fs.gitTracked d e0 with
    | calledProcessError => exact absurd hT hTa
    | fileNotFoundError => simp [_expand_exts, hT]
    | output t =>
      cases hU : fs.gitUntracked d e0 with
      | calledProcessError => exact absurd hU hUa
      | fileNotFoundError => simp [_expand_exts, hT, hU]
      | output u =>
        have hrest : ext ∈ rest := by
          rcases List.mem_cons.mp hmem with h0 | h0
          · subst h0
            rcases hfail with hf | hf
            · rw [hT] at hf; exact GitResult.noConfusion hf
            · rw [hU] at hf; exact GitResult.noConfusion hf
          · exact h0
        simp only [_expand_exts, hT, hU, if_true]
        exact ih _ (fun e he => hexit e (List.mem_cons_of_mem e0 he)) ⟨ext, hrest, hfail⟩

theorem _expand_exts_git_ok (fs : FS) (d : SPath) (exts : List String)
    (acc : Finset SPath)
    (h : ∀ ext ∈ exts, (fs.gitTracked d ext).isOutput ∧ (fs.gitUntracked d ext).isOutput) :
    _expand_exts fs d true exts acc = .ok (acc ∪ gitUnion fs d exts) := by
  induction exts generalizing acc with
  | nil => simp [_expand_exts, gitUnion]
  | cons e0 rest ih =>
    obtain ⟨hT0, hU0⟩ := h e0 (List.mem_cons_self e0 rest)
    have hrest : ∀ ext ∈ rest, (fs.gitTracked d ext).isOutput ∧ (fs.gitUntracked d ext).isOutput :=
      fun ext hm => h ext (List.mem_cons_of_mem e0 hm)
    cases hT : fs.gitTracked d e0 with
    | calledProcessError => rw [hT] at hT0; exact Bool.noConfusion hT0
    | fileNotFoundError => rw [hT] at hT0; exact Bool.noConfusion hT0
    | output t =>
      cases hU : fs.gitUntracked d e0 with
      | calledProcessError => rw [hU] at hU0; exact Bool.noConfusion hU0
      | fileNotFoundError => rw [hU] at hU0; exact Bool.noConfusion hU0
      | output u =>
        simp only [_expand_exts, hT, hU, if_true]
        rw [ih _ hrest]
        simp only [gitUnion, hT, hU, GitResult.getOutput]
        rw [Finset.union_assoc, Finset.union_assoc]

/-- Counterexample to claim C8 as stated: on a machine where the git tool
is unavailable every query fails, yet the git-mode expansion of `repo` does
not raise `NotGitProjectError` for any directory — the builtin
`FileNotFoundError` escapes the `except subprocess.CalledProcessError`
handler of the source uncaught. -/
theorem c8_unavailable_tool_not_converted :
    _expand_dir fsNoGit ⟨false, ["repo"]⟩ "go" true = .error .FileNotFoundError ∧
    ∀ d2, _expand_dir fsNoGit ⟨false, ["repo"]⟩ "go" true ≠
      .error (.NotGitProjectError d2) := by
  have h : _expand_dir fsNoGit ⟨false, ["repo"]⟩ "go" true = .error .FileNotFoundError := by
    decide
  refine ⟨h, fun d2 hd => ?_⟩
  rw [h] at hd
  exact PyError.noConfusion (Except.error.inj hd)

/-- Claim C8 as amended: in git mode, a version-control query that exits
nonzero for any of the language's extensions (the tool being available
throughout) makes `_expand_dir` raise the distinct `NotGitProjectError` for
that directory; an unavailable git tool instead lets the builtin
`FileNotFoundError` propagate uncaught — it is NOT converted to
`NotGitProjectError`; and if every query succeeds the expansion returns
exactly the union, over the extensions, of the tracked and the
untracked-but-not-ignored files, each rooted at the queried directory. -/
theorem c8_git_expansion (fs : FS) (d : SPath) (lang : String) (exts : List String)
    (hl : lang_to_exts lang = .ok exts) :
    ((∀ ext ∈ exts, fs.gitTracked d ext ≠ .fileNotFoundError ∧
        fs.gitUntracked d ext ≠ .fileNotFoundError) →
      (∃ ext ∈ exts, fs.gitTracked d ext = .calledProcessError ∨
        fs.gitUntracked d ext = .calledProcessError) →
      _expand_dir fs d lang true = .error (.NotGitProjectError d)) ∧
    ((∀ ext ∈ exts, fs.gitTracked d ext ≠ .calledProcessError ∧
        fs.gitUntracked d ext ≠ .calledProcessError) →
      (∃ ext ∈ exts, fs.gitTracked d ext = .fileNotFoundError ∨
        fs.gitUntracked d ext = .fileNotFoundError) →
      _expand_dir fs d lang true = .error .FileNotFoundError) ∧
    ((∀ ext ∈ exts, (fs.gitTracked d ext).isOutput ∧ (fs.gitUntracked d ext).isOutput) →
      _expand_dir fs d lang true = .ok (gitUnion fs d exts)) := by
  refine ⟨fun havail h => ?_, fun hexit h => ?_, fun h => ?_⟩
  · simp only [_expand_dir, hl]
    exact _expand_exts_git_fail fs d exts ∅ havail h
  · simp only [_expand_dir, hl]
    exact _expand_exts_git_notfound fs d exts ∅ hexit h
  · simp only [_expand_dir, hl]
    rw [_expand_exts_git_ok fs d exts ∅ h]
    rw [Finset.empty_union]

/-- Witness for the amended C8: with git available but no repository at
`repo` (nonzero exits) the `go` expansion fails with `NotGitProjectError`;
with git itself missing it fails with the uncaught `FileNotFoundError`; and
against the recorded outputs it returns the tracked `x.go`, `sub/y.go` and
the untracked `z.go`, all rooted at `repo`. -/
theorem c8_git_expansion_witness :
    _expand_dir fsEmpty ⟨false, ["repo"]⟩ "go" true =
      .error (.NotGitProjectError ⟨false, ["repo"]⟩) ∧
    _expand_dir fsNoGit ⟨false, ["repo"]⟩ "go" true = .error .FileNotFoundError ∧
    _expand_dir fsGit ⟨false, ["repo"]⟩ "go" true =
      .ok (gitUnion fsGit ⟨false, ["repo"]⟩ ["go"]) ∧
    gitUnion fsGit ⟨false, ["repo"]⟩ ["go"] =
      {(⟨false, ["repo", "x.go"]⟩ : SPath), ⟨false, ["repo", "sub", "y.go"]⟩,
        ⟨false, ["repo", "z.go"]⟩} :=
  ⟨(c8_git_expansion fsEmpty ⟨false, ["repo"]⟩ "go" ["go"] (by decide)).1
     (by decide) (by decide),
   (c8_git_expansion fsNoGit ⟨false, ["repo"]⟩ "go" ["go"] (by decide)).2.1
     (by decide) (by decide),
   (c8_git_expansion fsGit ⟨false, ["repo"]⟩ "go" ["go"] (by decide)).2.2 (by decide),
   by decide⟩

/-- Claim C9: Scenario A — targets `["src"]`, language `python`, no
includes or excludes, plain filesystem walk: a directory `src` holding
`a.py`, `b.pyi` and `c.txt` yields exactly `{src/a.py, src/b.pyi}`; and in
general the plain expansion of a directory for `python` is the union of the
per-extension listings over both extensions `py` and `pyi` (so a file with
any other suffix is never produced). -/
theorem c9_scenario_a_python_extensions :
    (TargetManager.init [] [] ["src"] false).filtered_files fsSrc "python" =
      .ok ({(⟨false, ["src", "a.py"]⟩ : SPath), ⟨false, ["src", "b.pyi"]⟩},
        ⟨[], [], ["src"], false,
          [("python",
            {(⟨false, ["src", "a.py"]⟩ : SPath), ⟨false, ["src", "b.pyi"]⟩})]⟩) ∧
    (∀ (fs : FS) (d : SPath),
      _expand_dir fs d "python" false = .ok (findFiles fs d "py" ∪ findFiles fs d "pyi")) := by
  refine ⟨by decide, ?_⟩
  intro fs d
  have hl : lang_to_exts "python" = .ok ["py", "pyi"] := by decide
  simp only [_expand_dir, hl, _expand_exts, Bool.false_eq_true, if_false]
  rw [Finset.empty_union]

/-- Claim C10: whenever `get_files` succeeds, the returned enumeration is
duplicate-free and drawn from the set `filtered_files` computed (its every
element is in the global set), and the local per-call filters apply to
everything — any path matching a local exclude pattern, or missing every
pattern of a non-empty local include list, is absent from the result, with
no bypass for explicitly named files. -/
theorem c10_get_files_local_filters
    (tm : TargetManager) (fs : FS) (lang : String)
    (includes excludes : List String) (l : Multiset SPath) (tm2 : TargetManager)
    (h : tm.get_files fs lang includes excludes = .ok (l, tm2)) :
    l.Nodup ∧
    ∃ s, tm.filtered_files fs lang = .ok (s, tm2) ∧
      (∀ x ∈ l, x ∈ s) ∧
      (∀ p, match_glob p excludes = true → p ∉ l) ∧
      (∀ p, includes ≠ [] → match_glob p includes = false → p ∉ l) := by
  unfold get_files at h
  cases hf : tm.filtered_files fs lang with
  | error e => rw [hf] at h; exact Except.noConfusion h
  | ok pr =>
    obtain ⟨s0, tm0⟩ := pr
    rw [hf] at h
    simp only [Except.ok.injEq, Prod.mk.injEq] at h
    obtain ⟨hl, htm⟩ := h
    subst htm
    refine ⟨?_, s0, rfl, ?_, ?_, ?_⟩
    · rw [← hl]
      exact (filter_excludes (filter_includes s0 includes) excludes).nodup
    · intro x hx
      rw [← hl] at hx
      have hx2 : x ∈ filter_excludes (filter_includes s0 includes) excludes := hx
      exact filter_includes_subset s0 includes (mem_filter_excludes _ _ _ hx2).1
    · intro p hmatch hp
      rw [← hl] at hp
      have : match_glob p excludes = false :=
        (mem_filter_excludes _ _ _ hp).2
      rw [hmatch] at this
      exact Bool.noConfusion this
    · intro p hne hmiss hp
      rw [← hl] at hp
      have hpi : p ∈ filter_includes s0 includes :=
        (mem_filter_excludes _ _ _ hp).1
      have : match_glob p includes = true := mem_filter_includes s0 includes p hne hpi
      rw [hmiss] at this
      exact Bool.noConfusion this

/-- Witness for C10: the explicit target `main.go` sits in the cached
global set (it bypassed the global exclude `*.go`), yet a `get_files` call
with the same pattern as a local exclude returns the empty enumeration. -/
theorem c10_get_files_local_filters_witness :
    (0 : Multiset SPath).Nodup ∧
    ∃ s, tmMainGo.filtered_files fsMainGo "go" =
        .ok (s,
          ⟨[], ["*.go"], ["main.go"], false,
            [("go", {(⟨false, ["main.go"]⟩ : SPath)})]⟩) ∧
      (∀ x ∈ (0 : Multiset SPath), x ∈ s) ∧
      (∀ p, match_glob p ["*.go"] = true → p ∉ (0 : Multiset SPath)) ∧
      (∀ p, ([] : List String) ≠ [] → match_glob p [] = false →
        p ∉ (0 : Multiset SPath)) :=
  c10_get_files_local_filters tmMainGo fsMainGo "go" [] ["*.go"] 0
    ⟨[], ["*.go"], ["main.go"], false, [("go", {(⟨false, ["main.go"]⟩ : SPath)})]⟩
    (by decide)

end SemgrepTM
